import Mathlib

/-!
Verification of the freerangenotify notification dispatch engine against
its specification. The repository ships only black-box client scripts
(setup_data.py, setup_test_environment.py, test_send.py,
test_webhook_e2e.py); the engine itself (scheduler, template renderer,
preference resolver, delivery adapters, tracker) is specified in spec.md
and modelled here from that specification, while the script-level
functions are embedded directly from the Python sources.
-/

namespace FRN

/-! ## Priority scheduler (Dispatcher / Scheduler, spec section 4.3)

Modelled from the spec: three ordered lanes keyed by priority, enqueue at
tail, dequeue from the highest non-empty lane; a dequeued item enters the
in-flight set and leaves it only when its own processing finishes. -/

inductive Priority where
  | low
  | normal
  | high
deriving DecidableEq, Repr

/-- Numeric rank of a priority lane: high outranks normal outranks low. -/
def prank : Priority → Nat
  | Priority.low => 0
  | Priority.normal => 1
  | Priority.high => 2

structure SchedState where
  highQ : List Nat
  normalQ : List Nat
  lowQ : List Nat
  inFlight : List Nat
deriving DecidableEq, Repr

def initState : SchedState := ⟨[], [], [], []⟩

/-- The queue lane holding items of a given priority. -/
def lane (p : Priority) (s : SchedState) : List Nat :=
  match p with
  | Priority.high => s.highQ
  | Priority.normal => s.normalQ
  | Priority.low => s.lowQ

/-- Modelled from the spec: enqueue appends at the tail of the lane keyed
by the submission priority. -/
def enqueue (s : SchedState) (p : Priority) (n : Nat) : SchedState :=
  match p with
  | Priority.high => { s with highQ := s.highQ ++ [n] }
  | Priority.normal => { s with normalQ := s.normalQ ++ [n] }
  | Priority.low => { s with lowQ := s.lowQ ++ [n] }

/-- Modelled from the spec: dequeue pulls the head of the highest
non-empty lane and moves it into the in-flight set. -/
def dequeue (s : SchedState) : Option (Priority × Nat × SchedState) :=
  match s.highQ with
  | n :: rest => some (Priority.high, n,
      { s with highQ := rest, inFlight := s.inFlight ++ [n] })
  | [] =>
    match s.normalQ with
    | n :: rest => some (Priority.normal, n,
        { s with normalQ := rest, inFlight := s.inFlight ++ [n] })
    | [] =>
      match s.lowQ with
      | n :: rest => some (Priority.low, n,
          { s with lowQ := rest, inFlight := s.inFlight ++ [n] })
      | [] => none

/-- Scheduler events: a submission into a lane, a worker pull, or the
completion of an in-flight item. -/
inductive Ev where
  | submit (p : Priority) (id : Nat)
  | pull
  | finish (id : Nat)
deriving DecidableEq, Repr

/-- Observable timeline events: a submission or a dispatch start. -/
inductive TEv where
  | sub (p : Priority) (id : Nat)
  | disp (p : Priority) (id : Nat)
deriving DecidableEq, Repr

/-- One scheduler step: the new state plus the observable event, if any. -/
def step (s : SchedState) : Ev → SchedState × Option TEv
  | Ev.submit p n => (enqueue s p n, some (TEv.sub p n))
  | Ev.pull =>
    match dequeue s with
    | some (q, n, s2) => (s2, some (TEv.disp q n))
    | none => (s, none)
  | Ev.finish n => ({ s with inFlight := s.inFlight.filter (fun m => m != n) }, none)

/-- The observable timeline produced by running a list of events. -/
def timeline (s : SchedState) : List Ev → List TEv
  | [] => []
  | e :: r =>
    match step s e with
    | (s2, some t) => t :: timeline s2 r
    | (s2, none) => timeline s2 r

/-- Ids submitted into lane p, in timeline order. -/
def subsOf (p : Priority) (tl : List TEv) : List Nat :=
  tl.filterMap fun t =>
    match t with
    | TEv.sub q n => if q = p then some n else none
    | TEv.disp _ _ => none

/-- Ids dispatched from lane p, in timeline order. -/
def dispsOf (p : Priority) (tl : List TEv) : List Nat :=
  tl.filterMap fun t =>
    match t with
    | TEv.disp q n => if q = p then some n else none
    | TEv.sub _ _ => none

/-! ## Channels and template renderer (spec sections 3, 4.1)

The placeholder form is taken from the templates the scripts create:
a variable reference is written as two opening braces, a dot, the
variable name, and two closing braces. -/

inductive Channel where
  | webhook
  | sse
  | email
  | sms
deriving DecidableEq, Repr

def lbrace : Char := Char.ofNat 123

def rbrace : Char := Char.ofNat 125

/-- A parsed template string segment: literal text or a variable
placeholder. -/
inductive Seg where
  | lit (cs : List Char)
  | var (v : String)
deriving DecidableEq, Repr

/-- Scan for the two closing braces of a placeholder, accumulating the
variable name; fuel-bounded so the recursion is structural. -/
def takeVarAux : Nat → List Char → List Char → Option (String × List Char)
  | 0, _, _ => none
  | _ + 1, _, [] => none
  | _ + 1, _, [_] => none
  | k + 1, acc, c1 :: c2 :: rest =>
    if c1 = rbrace ∧ c2 = rbrace then some (String.mk acc.reverse, rest)
    else takeVarAux k (c1 :: acc) (c2 :: rest)

/-- Push a literal character onto the front of a segment list, merging
with a leading literal segment. -/
def consLit (c : Char) : List Seg → List Seg
  | Seg.lit l :: t => Seg.lit (c :: l) :: t
  | t => Seg.lit [c] :: t

/-- Fuel-bounded template scanner: splits a character list into literal
segments and variable placeholders. -/
def parseAux : Nat → List Char → List Seg
  | 0, cs => if cs.isEmpty then [] else [Seg.lit cs]
  | _ + 1, [] => []
  | k + 1, c1 :: c2 :: c3 :: rest =>
    if c1 = lbrace ∧ c2 = lbrace ∧ c3 = '.' then
      match takeVarAux rest.length [] rest with
      | some (v, r) => Seg.var v :: parseAux k r
      | none => [Seg.lit (c1 :: c2 :: c3 :: rest)]
    else consLit c1 (parseAux k (c2 :: c3 :: rest))
  | k + 1, c :: cs => consLit c (parseAux k cs)

def parseTemplateStr (s : String) : List Seg :=
  parseAux s.data.length s.data

/-- The variable names referenced by a segment list, in scan order. -/
def varsOf (segs : List Seg) : List String :=
  segs.filterMap fun sg =>
    match sg with
    | Seg.var v => some v
    | Seg.lit _ => none

structure Template where
  name : String
  channel : Channel
  subject : String
  body : String
  declaredVars : List String
deriving DecidableEq, Repr

/-- All placeholders referenced in the subject or body of a template. -/
def referencedVars (t : Template) : List String :=
  varsOf (parseTemplateStr t.subject) ++ varsOf (parseTemplateStr t.body)

/-- First-match lookup of a variable binding. -/
def lookupVar : List (String × String) → String → Option String
  | [], _ => none
  | (k, val) :: rest, v => if k = v then some val else lookupVar rest v

/-- Modelled from the spec: MissingVariable is the only failure mode
of the renderer. -/
inductive RenderError where
  | MissingVariable (name : String)
deriving DecidableEq, Repr

/-- A rendered output piece: substituted text, or a placeholder left
unresolved because its variable has no binding. -/
inductive Piece where
  | text (s : String)
  | unresolved (v : String)
deriving DecidableEq, Repr

/-- Modelled from the spec: substitute each placeholder with its binding;
a placeholder whose variable is unbound stays unresolved. -/
def pieces (b : List (String × String)) (segs : List Seg) : List Piece :=
  segs.map fun sg =>
    match sg with
    | Seg.lit l => Piece.text (String.mk l)
    | Seg.var v =>
      match lookupVar b v with
      | some val => Piece.text val
      | none => Piece.unresolved v

def firstUnresolved : List Piece → Option String
  | [] => none
  | Piece.unresolved v :: _ => some v
  | Piece.text _ :: rest => firstUnresolved rest

def concatPieces : List Piece → String
  | [] => ""
  | Piece.text s :: rest => s ++ concatPieces rest
  | Piece.unresolved _ :: rest => concatPieces rest

structure Rendered where
  subject : String
  body : String
deriving DecidableEq, Repr

/-- Modelled from the spec: render one template string against the
bindings, failing with MissingVariable at the first unresolved
placeholder. -/
def renderStr (b : List (String × String)) (s : String) : Except RenderError String :=
  let ps := pieces b (parseTemplateStr s)
  match firstUnresolved ps with
  | some v => Except.error (RenderError.MissingVariable v)
  | none => Except.ok (concatPieces ps)

/-- Modelled from the spec: render(template, bindings) renders subject
then body, propagating the first failure. -/
def render (t : Template) (b : List (String × String)) : Except RenderError Rendered :=
  match renderStr b t.subject, renderStr b t.body with
  | Except.ok s, Except.ok bo => Except.ok ⟨s, bo⟩
  | Except.error e, _ => Except.error e
  | Except.ok _, Except.error e => Except.error e

/-- Modelled from the spec: template creation accepts the template
exactly when every referenced placeholder is a declared variable
(enforced at creation, not at send time). -/
def createAccepts (t : Template) : Bool :=
  (referencedVars t).all fun v => t.declaredVars.contains v

/-- The welcome_alert template created by scripts/setup_data.py. -/
def welcomeAlert : Template :=
  { name := "welcome_alert"
    channel := Channel.webhook
    subject := "Welcome \x7b\x7b.name\x7d\x7d!"
    body := "Hello \x7b\x7b.name\x7d\x7d, welcome to FreeRangeNotify! Your role is \x7b\x7b.role\x7d\x7d."
    declaredVars := ["name", "role"] }

/-- The sse_test_template template created by setup_test_environment.py. -/
def sseTestTemplate : Template :=
  { name := "sse_test_template"
    channel := Channel.sse
    subject := "Test Notification"
    body := "Hello \x7b\x7b.name\x7d\x7d, this is a test."
    declaredVars := ["name"] }

/-! ## Preference resolver (spec section 4.2) -/

structure CategoryPref where
  enabled : Bool
  enabledChannels : List Channel
deriving DecidableEq, Repr

structure Preferences where
  channelFlag : Channel → Bool
  categories : List (String × CategoryPref)

/-- First-match lookup of a category override record. -/
def lookupCategory : List (String × CategoryPref) → String → Option CategoryPref
  | [], _ => none
  | (n, cp) :: rest, c => if n = c then some cp else lookupCategory rest c

/-- Modelled from the spec: a supplied category present in the map
decides via its enabled flag and channel membership; otherwise the
global per-channel flag decides. -/
def isAllowed (prefs : Preferences) (ch : Channel) (cat : Option String) : Bool :=
  match cat with
  | none => prefs.channelFlag ch
  | some c =>
    match lookupCategory prefs.categories c with
    | none => prefs.channelFlag ch
    | some cp => cp.enabled && cp.enabledChannels.contains ch

/-- The preference record of the user created by setup_test_environment.py:
only a default category allowing the sse channel; the witness instantiates
the global flags to false to show the category decides. -/
def sseUserPrefs : Preferences :=
  { channelFlag := fun _ => false
    categories := [("default", ⟨true, [Channel.sse]⟩)] }

/-! ## Dispatcher: submission, validation, idempotency (spec section 4.3) -/

/-- World of administrative records read by validation: templates as
(templateId, appId, channel) and users as (userId, preferences). -/
structure World where
  templates : List (Nat × Nat × Channel)
  users : List (Nat × Preferences)

structure Req where
  appId : Nat
  userId : Option Nat
  templateId : Option Nat
  channel : Option Channel
  priority : Priority
  idemKey : Option String
  overrideUrl : Option String
  category : Option String

def findTemplate (w : World) (tid : Nat) : Option (Nat × Nat × Channel) :=
  w.templates.find? fun tr => tr.1 == tid

def lookupPrefs : List (Nat × Preferences) → Nat → Option Preferences
  | [], _ => none
  | (u, prefs) :: rest, uid => if u = uid then some prefs else lookupPrefs rest uid

def findUser (w : World) (uid : Nat) : Option Preferences :=
  lookupPrefs w.users uid

/-- Modelled from the spec: a submission is valid when the channel is a
recognized value, a referenced template belongs to the same application
with a matching channel, and, unless a delivery override is supplied,
the preference resolver allows the channel for the target user. -/
def validate (w : World) (r : Req) : Bool :=
  match r.channel with
  | none => false
  | some c =>
    (match r.templateId with
     | none => true
     | some tid =>
       match findTemplate w tid with
       | none => false
       | some tr => (tr.2.1 == r.appId) && (tr.2.2 == c)) &&
    (match r.overrideUrl with
     | some _ => true
     | none =>
       match r.userId with
       | none => true
       | some uid =>
         match findUser w uid with
         | none => false
         | some prefs => isAllowed prefs c r.category)

structure DispState where
  nextId : Nat
  records : List (Nat × Nat)
  idemMap : List ((Nat × String) × Nat)
  queue : List (Priority × Nat)
deriving DecidableEq, Repr

def initDispState : DispState := ⟨0, [], [], []⟩

inductive SubmitResult where
  | accepted (id : Nat)
  | validationError
deriving DecidableEq, Repr

def lookupIdem : List ((Nat × String) × Nat) → Nat → String → Option Nat
  | [], _, _ => none
  | (key, nid) :: rest, app, k =>
    if key.1 = app ∧ key.2 = k then some nid else lookupIdem rest app k

/-- Modelled from the spec: accepting a fresh submission assigns a new
id, appends the record, registers the idempotency key if present, and
enqueues into the lane keyed by priority. -/
def submitNew (st : DispState) (r : Req) : SubmitResult × DispState :=
  (SubmitResult.accepted st.nextId,
   { nextId := st.nextId + 1
     records := st.records ++ [(st.nextId, r.appId)]
     idemMap :=
       match r.idemKey with
       | some k => st.idemMap ++ [((r.appId, k), st.nextId)]
       | none => st.idemMap
     queue := st.queue ++ [(r.priority, st.nextId)] })

/-- Modelled from the spec: submit validates, then either returns the
notification id already associated with the idempotency key for this
application (leaving all state unchanged) or creates a new record; an
invalid request is rejected with nothing enqueued. -/
def submit (w : World) (st : DispState) (r : Req) : SubmitResult × DispState :=
  if validate w r = true then
    match r.idemKey with
    | some k =>
      match lookupIdem st.idemMap r.appId k with
      | some nid => (SubmitResult.accepted nid, st)
      | none => submitNew st r
    | none => submitNew st r
  else (SubmitResult.validationError, st)

/-! ## Delivery adapters and tracker outcomes (spec sections 4.4, 4.5) -/

inductive HttpOutcome where
  | response (code : Nat)
  | networkFailure
  | timeout
deriving DecidableEq, Repr

inductive AttemptOutcome where
  | success
  | transientFailure
  | permanentFailure
  | undeliverable
deriving DecidableEq, Repr

inductive DStatus where
  | delivered
  | failed
  | undeliverable
deriving DecidableEq, Repr

/-- Modelled from the spec: the webhook adapter maps a 2xx response to
success; network errors, timeouts, 5xx and rate-limit responses to a
transient failure; any other 4xx response to a permanent failure. -/
def classifyWebhook : HttpOutcome → AttemptOutcome
  | HttpOutcome.networkFailure => AttemptOutcome.transientFailure
  | HttpOutcome.timeout => AttemptOutcome.transientFailure
  | HttpOutcome.response c =>
    if 200 ≤ c ∧ c < 300 then AttemptOutcome.success
    else if 400 ≤ c ∧ c < 500 then
      (if c = 429 then AttemptOutcome.transientFailure else AttemptOutcome.permanentFailure)
    else AttemptOutcome.transientFailure

/-- Modelled from the spec: exponential backoff delay before retry
number a, doubling each attempt from a base delay. -/
def backoffDelay (base : Nat) (a : Nat) : Nat := base * 2 ^ a

/-- Modelled from the spec: the delivery loop performs attempts until
success, a permanent failure, an undeliverable outcome, or the attempt
budget is exhausted; the result is the attempt count and terminal
status. -/
def deliverLoop (f : Nat → HttpOutcome) (done : Nat) : Nat → Nat × DStatus
  | 0 => (done, DStatus.failed)
  | rem + 1 =>
    match classifyWebhook (f done) with
    | AttemptOutcome.success => (done + 1, DStatus.delivered)
    | AttemptOutcome.permanentFailure => (done + 1, DStatus.failed)
    | AttemptOutcome.undeliverable => (done + 1, DStatus.undeliverable)
    | AttemptOutcome.transientFailure => deliverLoop f (done + 1) rem

/-- Webhook delivery of one notification with a maximum attempt count,
where f gives the transport outcome of each attempt. -/
def webhookDelivery (f : Nat → HttpOutcome) (maxAttempts : Nat) : Nat × DStatus :=
  deliverLoop f 0 maxAttempts

/-- The Connection Registry: the live session handle of a user, if any
(first match). -/
def lookupSession : List (Nat × Nat) → Nat → Option Nat
  | [], _ => none
  | (u, s) :: rest, uid => if u = uid then some s else lookupSession rest uid

/-- The sessions a user currently has in the registry. -/
def sessionsOf (reg : List (Nat × Nat)) (uid : Nat) : List Nat :=
  (reg.filter fun e => e.1 == uid).map fun e => e.2

/-- Result of dispatching one SSE notification: terminal status, number
of delivery attempts, and the (session, notification id) events pushed. -/
structure SseResult where
  status : DStatus
  attempts : Nat
  events : List (Nat × Nat)
deriving DecidableEq, Repr

/-- Modelled from the spec: the SSE adapter looks up the live session
of the user; with no session the notification terminates immediately as
undeliverable with zero attempts and no retry, with a session it pushes
one event carrying the notification id and terminates delivered. -/
def sseDispatch (reg : List (Nat × Nat)) (uid : Nat) (nid : Nat) : SseResult :=
  match lookupSession reg uid with
  | none => ⟨DStatus.undeliverable, 0, []⟩
  | some s => ⟨DStatus.delivered, 1, [(s, nid)]⟩

/-! ## Script-level functions embedded from the Python sources -/

/-- Outcome of one urllib call in scripts/setup_data.py: a successfully
read and JSON-decoded body, an HTTPError with its code and body, or any
other exception. -/
inductive HttpResult where
  | success (body : String)
  | httpFailure (code : Nat) (body : String)
  | otherFailure
deriving DecidableEq, Repr

/-- Embedded from scripts/setup_data.py request(): returns the decoded
body on success and terminates the process with exit code 1 on any
exception. -/
def requestCall : HttpResult → Except Nat String
  | HttpResult.success b => Except.ok b
  | HttpResult.httpFailure _ _ => Except.error 1
  | HttpResult.otherFailure => Except.error 1

/-- Embedded from scripts/setup_data.py main(): perform the calls in
order, stopping at the first one that exits; the result is the list of
bodies obtained and the exit code, if any. -/
def mainSteps : List HttpResult → List String × Option Nat
  | [] => ([], none)
  | r :: rest =>
    match requestCall r with
    | Except.ok b =>
      let p := mainSteps rest
      (b :: p.1, p.2)
    | Except.error c => ([], some c)

/-- Character constants used by the JSON recognizer. -/
def quoteChar : Char := Char.ofNat 34

def backslashChar : Char := Char.ofNat 92

def skipWs : List Char → List Char
  | [] => []
  | c :: cs =>
    if c = ' ' ∨ c = Char.ofNat 9 ∨ c = Char.ofNat 10 ∨ c = Char.ofNat 13 then skipWs cs
    else c :: cs

/-- Consume a JSON string after its opening quote, skipping escaped
characters; fuel-bounded so the recursion is structural. -/
def jsonStringRest : Nat → List Char → Option (List Char)
  | 0, _ => none
  | _ + 1, [] => none
  | k + 1, c :: cs =>
    if c = quoteChar then some cs
    else if c = backslashChar then
      match cs with
      | [] => none
      | _ :: cs2 => jsonStringRest k cs2
    else jsonStringRest k cs

def dropDigits : List Char → List Char
  | [] => []
  | c :: cs => if c.isDigit = true then dropDigits cs else c :: cs

def takeDigits1 : List Char → Option (List Char)
  | [] => none
  | c :: cs => if c.isDigit = true then some (dropDigits cs) else none

def jsonFracPart : List Char → Option (List Char)
  | [] => some []
  | c :: rest => if c = '.' then takeDigits1 rest else some (c :: rest)

def jsonExpPart : List Char → Option (List Char)
  | [] => some []
  | c :: rest =>
    if c = 'e' ∨ c = 'E' then
      match rest with
      | [] => none
      | c2 :: rest2 => if c2 = '+' ∨ c2 = '-' then takeDigits1 rest2 else takeDigits1 rest
    else some (c :: rest)

def jsonNumber (cs : List Char) : Option (List Char) :=
  let cs1 := match cs with
    | c :: rest => if c = '-' then rest else cs
    | [] => cs
  match takeDigits1 cs1 with
  | none => none
  | some cs2 =>
    match jsonFracPart cs2 with
    | none => none
    | some cs3 => jsonExpPart cs3

/-- Parsing task of the fuel-bounded JSON recognizer: a value, the rest
of an object after its opening brace, or the rest of an array after its
opening bracket. -/
inductive JTask where
  | value
  | objBody
  | arrBody
deriving DecidableEq, Repr

/-- Fuel-bounded JSON value recognizer: consumes one JSON value (or
object or array remainder) and returns the unconsumed input. -/
def jsonRun : Nat → JTask → List Char → Option (List Char)
  | 0, _, _ => none
  | k + 1, JTask.value, cs =>
    match skipWs cs with
    | [] => none
    | c :: rest =>
      if c = quoteChar then jsonStringRest (rest.length + 1) rest
      else if c = lbrace then jsonRun k JTask.objBody rest
      else if c = '[' then jsonRun k JTask.arrBody rest
      else if c = '-' ∨ c.isDigit = true then jsonNumber (c :: rest)
      else
        match c, rest with
        | 't', 'r' :: 'u' :: 'e' :: r2 => some r2
        | 'f', 'a' :: 'l' :: 's' :: 'e' :: r2 => some r2
        | 'n', 'u' :: 'l' :: 'l' :: r2 => some r2
        | _, _ => none
  | k + 1, JTask.objBody, cs =>
    match skipWs cs with
    | [] => none
    | c :: rest =>
      if c = rbrace then some rest
      else if c = quoteChar then
        match jsonStringRest (rest.length + 1) rest with
        | none => none
        | some afterKey =>
          match skipWs afterKey with
          | ':' :: afterColon =>
            match jsonRun k JTask.value afterColon with
            | none => none
            | some afterVal =>
              match skipWs afterVal with
              | ',' :: afterComma => jsonRun k JTask.objBody afterComma
              | c2 :: r2 => if c2 = rbrace then some r2 else none
              | [] => none
          | _ => none
      else none
  | k + 1, JTask.arrBody, cs =>
    match skipWs cs with
    | [] => none
    | c :: rest =>
      if c = ']' then some rest
      else
        match jsonRun k JTask.value (c :: rest) with
        | none => none
        | some afterVal =>
          match skipWs afterVal with
          | ',' :: afterComma => jsonRun k JTask.arrBody afterComma
          | c2 :: r2 => if c2 = ']' then some r2 else none
          | [] => none

/-- Modelled from the Python standard library json.loads the script
calls: returns the decoded body exactly when the whole text is one JSON
value, and none where json.loads would raise JSONDecodeError; the
decoded value is carried as its source text. -/
def jsonLoads (s : String) : Option String :=
  match jsonRun (s.data.length + 1) JTask.value s.data with
  | some rest => if (skipWs rest).isEmpty = true then some s else none
  | none => none

/-- The Python exception a failed body decode raises out of
http_request. -/
inductive PyExc where
  | jsonDecodeFailure
deriving DecidableEq, Repr

/-- Outcome of one urllib call in scripts/test_webhook_e2e.py: the body
is the raw decoded response text, empty string for an empty body. -/
inductive UrlOutcome where
  | ok (status : Nat) (body : String)
  | httpFailure (code : Nat) (body : String)
  | urlFailure
deriving DecidableEq, Repr

/-- The empty JSON object substituted for an empty body. -/
def emptyObject : String := "\x7b\x7d"

/-- Embedded from scripts/test_webhook_e2e.py: the shared expression
json.loads(body) if body else a literal empty dict; none models the
raised JSONDecodeError. -/
def loadsOrEmpty (loads : String → Option String) (b : String) : Option String :=
  if b = "" then some emptyObject else loads b

/-- Embedded from scripts/test_webhook_e2e.py http_request(): a
successful response maps to its status and decoded body, an HTTPError
to its code and decoded body, a URLError to status 0 with no body; in
the first two branches a non-empty body that fails to decode raises out
of the function, modelled as an error result. -/
def httpRequestModel (loads : String → Option String) :
    UrlOutcome → Except PyExc (Nat × Option String)
  | UrlOutcome.ok s b =>
    match loadsOrEmpty loads b with
    | some j => Except.ok (s, some j)
    | none => Except.error PyExc.jsonDecodeFailure
  | UrlOutcome.httpFailure c b =>
    match loadsOrEmpty loads b with
    | some j => Except.ok (c, some j)
    | none => Except.error PyExc.jsonDecodeFailure
  | UrlOutcome.urlFailure => Except.ok (0, none)

/-- The status http_request reports for an outcome when no exception
occurs. -/
def statusOf : UrlOutcome → Nat
  | UrlOutcome.ok s _ => s
  | UrlOutcome.httpFailure c _ => c
  | UrlOutcome.urlFailure => 0

/-- Whether an outcome decodes without raising: a URLError carries no
body, otherwise the body is empty or loads succeeds on it. -/
def decodes (loads : String → Option String) : UrlOutcome → Bool
  | UrlOutcome.ok _ b => b == "" || (loads b).isSome
  | UrlOutcome.httpFailure _ b => b == "" || (loads b).isSome
  | UrlOutcome.urlFailure => true

/-- Embedded from scripts/test_webhook_e2e.py wait_for_health(): poll
the health endpoint up to the remaining number of retries, returning
true at the first status 200; an exception raised by http_request
propagates. -/
def waitForHealthAux (loads : String → Option String) (f : Nat → UrlOutcome)
    (i : Nat) : Nat → Except PyExc Bool
  | 0 => Except.ok false
  | rem + 1 =>
    match httpRequestModel loads (f i) with
    | Except.error e => Except.error e
    | Except.ok p =>
      if p.1 = 200 then Except.ok true
      else waitForHealthAux loads f (i + 1) rem

/-- Embedded from scripts/test_webhook_e2e.py: max_retries is 30. -/
def waitForHealth (loads : String → Option String) (f : Nat → UrlOutcome) :
    Except PyExc Bool :=
  waitForHealthAux loads f 0 30

/-- Embedded from scripts/test_webhook_e2e.py run_test() step 3: any
status other than 202 exits with code 1, otherwise the notification id
is read from the accepted response. -/
def scriptNotifStep (status : Nat) (notifId : String) : Except Nat String :=
  if status = 202 then Except.ok notifId else Except.error 1

/-! ## Scheduler lemmas and the ordering claim -/

lemma lane_enqueue (s : SchedState) (p q : Priority) (n : Nat) :
    lane p (enqueue s q n) = lane p s ++ (if q = p then [n] else []) := by
  cases p <;> cases q <;> simp [lane, enqueue]

lemma inFlight_enqueue (s : SchedState) (q : Priority) (n : Nat) :
    (enqueue s q n).inFlight = s.inFlight := by
  cases q <;> rfl

lemma lane_set_inFlight (p : Priority) (s : SchedState) (l : List Nat) :
    lane p { s with inFlight := l } = lane p s := by
  cases p <;> rfl

lemma dequeue_some_lane {s : SchedState} {q : Priority} {n : Nat} {s2 : SchedState}
    (h : dequeue s = some (q, n, s2)) :
    lane q s = n :: lane q s2 ∧ (∀ p, p ≠ q → lane p s2 = lane p s) ∧
      (∀ p, prank q < prank p → lane p s = []) := by
  cases hh : s.highQ with
  | cons a t =>
    simp only [dequeue, hh, Option.some.injEq, Prod.mk.injEq] at h
    obtain ⟨hq, hn, hs⟩ := h
    subst hq; subst hn; subst hs
    refine ⟨by simp [lane, hh], fun p hp => ?_, fun p hp => ?_⟩
    · cases p <;> simp_all [lane]
    · cases p <;> simp [prank] at hp
  | nil =>
    cases hm : s.normalQ with
    | cons a t =>
      simp only [dequeue, hh, hm, Option.some.injEq, Prod.mk.injEq] at h
      obtain ⟨hq, hn, hs⟩ := h
      subst hq; subst hn; subst hs
      refine ⟨by simp [lane, hm], fun p hp => ?_, fun p hp => ?_⟩
      · cases p <;> simp_all [lane]
      · cases p <;> (simp [prank] at hp)
        simp [lane, hh]
    | nil =>
      cases hl : s.lowQ with
      | cons a t =>
        simp only [dequeue, hh, hm, hl, Option.some.injEq, Prod.mk.injEq] at h
        obtain ⟨hq, hn, hs⟩ := h
        subst hq; subst hn; subst hs
        refine ⟨by simp [lane, hl], fun p hp => ?_, fun p hp => ?_⟩
        · cases p <;> simp_all [lane]
        · cases p <;> simp [prank] at hp <;> simp [lane, hh, hm]
      | nil => simp [dequeue, hh, hm, hl] at h

lemma dequeue_some_inFlight {s : SchedState} {q : Priority} {n : Nat} {s2 : SchedState}
    (h : dequeue s = some (q, n, s2)) : s2.inFlight = s.inFlight ++ [n] := by
  cases hh : s.highQ with
  | cons a t => simp only [dequeue, hh, Option.some.injEq, Prod.mk.injEq] at h; simp [← h.2.2, h.2.1]
  | nil =>
    cases hm : s.normalQ with
    | cons a t =>
      simp only [dequeue, hh, hm, Option.some.injEq, Prod.mk.injEq] at h; simp [← h.2.2, h.2.1]
    | nil =>
      cases hl : s.lowQ with
      | cons a t =>
        simp only [dequeue, hh, hm, hl, Option.some.injEq, Prod.mk.injEq] at h
        simp [← h.2.2, h.2.1]
      | nil => simp [dequeue, hh, hm, hl] at h

lemma timeline_submit (s : SchedState) (p : Priority) (n : Nat) (r : List Ev) :
    timeline s (Ev.submit p n :: r) = TEv.sub p n :: timeline (enqueue s p n) r := rfl

lemma timeline_pull_some {s : SchedState} {q : Priority} {n : Nat} {s2 : SchedState}
    (h : dequeue s = some (q, n, s2)) (r : List Ev) :
    timeline s (Ev.pull :: r) = TEv.disp q n :: timeline s2 r := by
  simp [timeline, step, h]

lemma timeline_pull_none {s : SchedState} (h : dequeue s = none) (r : List Ev) :
    timeline s (Ev.pull :: r) = timeline s r := by
  simp [timeline, step, h]

lemma timeline_finish (s : SchedState) (n : Nat) (r : List Ev) :
    timeline s (Ev.finish n :: r) =
      timeline { s with inFlight := s.inFlight.filter (fun m => m != n) } r := rfl

lemma subsOf_cons_sub (p p2 : Priority) (m : Nat) (tl : List TEv) :
    subsOf p (TEv.sub p2 m :: tl) = (if p2 = p then [m] else []) ++ subsOf p tl := by
  by_cases h : p2 = p <;> simp [subsOf, List.filterMap_cons, h]

lemma subsOf_cons_disp (p q : Priority) (m : Nat) (tl : List TEv) :
    subsOf p (TEv.disp q m :: tl) = subsOf p tl := by
  simp [subsOf, List.filterMap_cons]

lemma dispsOf_cons_sub (p p2 : Priority) (m : Nat) (tl : List TEv) :
    dispsOf p (TEv.sub p2 m :: tl) = dispsOf p tl := by
  simp [dispsOf, List.filterMap_cons]

lemma dispsOf_cons_disp (p q : Priority) (m : Nat) (tl : List TEv) :
    dispsOf p (TEv.disp q m :: tl) = (if q = p then [m] else []) ++ dispsOf p tl := by
  by_cases h : q = p <;> simp [dispsOf, List.filterMap_cons, h]

/-- An item sitting in a higher-priority lane is dispatched before any
dispatch from a lower-priority lane in the rest of the run. -/
lemma lane_item_disp_first :
    ∀ (evs : List Ev) (s : SchedState) (p q : Priority), prank q < prank p →
      ∀ (t1 : List TEv) (n : Nat) (t2 : List TEv),
        timeline s evs = t1 ++ TEv.disp q n :: t2 →
        ∀ h2, h2 ∈ lane p s → TEv.disp p h2 ∈ t1 := by
  intro evs
  induction evs with
  | nil =>
    intro s p q hpq t1 n t2 heq h2 hmem
    simp [timeline] at heq
  | cons e r ih =>
    intro s p q hpq t1 n t2 heq h2 hmem
    cases e with
    | submit p2 m =>
      rw [timeline_submit] at heq
      cases t1 with
      | nil => simp at heq
      | cons x t1x =>
        simp only [List.cons_append, List.cons.injEq] at heq
        obtain ⟨_, htl⟩ := heq
        have hmem2 : h2 ∈ lane p (enqueue s p2 m) := by
          rw [lane_enqueue]; exact List.mem_append_left _ hmem
        exact List.mem_cons_of_mem _ (ih (enqueue s p2 m) p q hpq t1x n t2 htl h2 hmem2)
    | pull =>
      cases hd : dequeue s with
      | none =>
        rw [timeline_pull_none hd] at heq
        exact ih s p q hpq t1 n t2 heq h2 hmem
      | some out =>
        obtain ⟨q2, m, s2⟩ := out
        rw [timeline_pull_some hd] at heq
        obtain ⟨hl1, hl2, hl3⟩ := dequeue_some_lane hd
        cases t1 with
        | nil =>
          simp only [List.nil_append, List.cons.injEq, TEv.disp.injEq] at heq
          obtain ⟨⟨hq2, _⟩, _⟩ := heq
          subst hq2
          rw [hl3 p hpq] at hmem
          exact absurd hmem (List.not_mem_nil _)
        | cons x t1x =>
          simp only [List.cons_append, List.cons.injEq] at heq
          obtain ⟨hx, htl⟩ := heq
          subst hx
          by_cases hcase : q2 = p ∧ m = h2
          · obtain ⟨hq2, hm⟩ := hcase
            subst hq2; subst hm
            exact List.mem_cons_self _ _
          · have hmem2 : h2 ∈ lane p s2 := by
              by_cases hq2 : q2 = p
              · subst hq2
                rw [hl1] at hmem
                rcases List.mem_cons.mp hmem with h | h
                · exact absurd ⟨rfl, h.symm⟩ hcase
                · exact h
              · rw [hl2 p (fun hpe => hq2 hpe.symm)]
                exact hmem
            exact List.mem_cons_of_mem _ (ih s2 p q hpq t1x n t2 htl h2 hmem2)
    | finish m =>
      rw [timeline_finish] at heq
      have hmem2 : h2 ∈ lane p { s with inFlight := s.inFlight.filter (fun x => x != m) } := by
        rw [lane_set_inFlight]; exact hmem
      exact ih _ p q hpq t1 n t2 heq h2 hmem2

/-- A higher-priority item submitted before a lower-priority dispatch is
itself dispatched before that dispatch. -/
lemma sub_before_disp :
    ∀ (evs : List Ev) (s : SchedState) (p q : Priority), prank q < prank p →
      ∀ (t1 : List TEv) (n : Nat) (t2 : List TEv),
        timeline s evs = t1 ++ TEv.disp q n :: t2 →
        ∀ h2, TEv.sub p h2 ∈ t1 → TEv.disp p h2 ∈ t1 := by
  intro evs
  induction evs with
  | nil =>
    intro s p q hpq t1 n t2 heq h2 hsub
    simp [timeline] at heq
  | cons e r ih =>
    intro s p q hpq t1 n t2 heq h2 hsub
    cases e with
    | submit p2 m =>
      rw [timeline_submit] at heq
      cases t1 with
      | nil => simp at heq
      | cons x t1x =>
        simp only [List.cons_append, List.cons.injEq] at heq
        obtain ⟨hx, htl⟩ := heq
        subst hx
        rcases List.mem_cons.mp hsub with hhd | htail
        · simp only [TEv.sub.injEq] at hhd
          obtain ⟨hp2, hm⟩ := hhd
          subst hp2; subst hm
          have hmem2 : h2 ∈ lane p (enqueue s p h2) := by
            rw [lane_enqueue]; simp
          exact List.mem_cons_of_mem _
            (lane_item_disp_first r (enqueue s p h2) p q hpq t1x n t2 htl h2 hmem2)
        · exact List.mem_cons_of_mem _ (ih (enqueue s p2 m) p q hpq t1x n t2 htl h2 htail)
    | pull =>
      cases hd : dequeue s with
      | none =>
        rw [timeline_pull_none hd] at heq
        exact ih s p q hpq t1 n t2 heq h2 hsub
      | some out =>
        obtain ⟨q2, m, s2⟩ := out
        rw [timeline_pull_some hd] at heq
        cases t1 with
        | nil => exact absurd hsub (List.not_mem_nil _)
        | cons x t1x =>
          simp only [List.cons_append, List.cons.injEq] at heq
          obtain ⟨hx, htl⟩ := heq
          subst hx
          rcases List.mem_cons.mp hsub with hhd | htail
          · exact absurd hhd (by simp)
          · exact List.mem_cons_of_mem _ (ih s2 p q hpq t1x n t2 htl h2 htail)
    | finish m =>
      rw [timeline_finish] at heq
      exact ih _ p q hpq t1 n t2 heq h2 hsub

/-- Within each lane the dispatch order extends to the submission order:
the pending tail of the lane is exactly what was submitted but not yet
dispatched. -/
lemma fifo_invariant :
    ∀ (evs : List Ev) (s : SchedState) (p : Priority),
      ∃ rest, lane p s ++ subsOf p (timeline s evs) =
        dispsOf p (timeline s evs) ++ rest := by
  intro evs
  induction evs with
  | nil =>
    intro s p
    exact ⟨lane p s, by simp [timeline, subsOf, dispsOf]⟩
  | cons e r ih =>
    intro s p
    cases e with
    | submit p2 m =>
      rw [timeline_submit]
      obtain ⟨rest, hr⟩ := ih (enqueue s p2 m) p
      refine ⟨rest, ?_⟩
      rw [subsOf_cons_sub, dispsOf_cons_sub, ← List.append_assoc, ← lane_enqueue]
      exact hr
    | pull =>
      cases hd : dequeue s with
      | none =>
        rw [timeline_pull_none hd]
        exact ih s p
      | some out =>
        obtain ⟨q2, m, s2⟩ := out
        rw [timeline_pull_some hd]
        obtain ⟨hl1, hl2, _⟩ := dequeue_some_lane hd
        obtain ⟨rest, hr⟩ := ih s2 p
        refine ⟨rest, ?_⟩
        rw [subsOf_cons_disp, dispsOf_cons_disp]
        by_cases hq : q2 = p
        · subst hq
          rw [hl1]
          simp [List.cons_append, hr]
        · rw [if_neg hq, List.nil_append, ← hl2 p (fun hpe => hq hpe.symm)]
          exact hr
    | finish m =>
      rw [timeline_finish]
      obtain ⟨rest, hr⟩ := ih { s with inFlight := s.inFlight.filter (fun x => x != m) } p
      rw [lane_set_inFlight] at hr
      exact ⟨rest, hr⟩

/-- Claim C1: starting from the empty scheduler, a) every high item
submitted before a normal item starts processing is itself dispatched
first, and likewise for every pair of lanes where one outranks the
other; b) within a lane the dispatch sequence is a prefix of the
submission sequence (FIFO); c) a worker never pulls from a lane while a
higher-priority lane is non-empty; d) an in-flight item is never
preempted: only its own finish event removes it from the in-flight
set. -/
theorem scheduler_ordering_claim :
    (∀ (evs : List Ev) (p q : Priority), prank q < prank p →
       ∀ (t1 : List TEv) (n : Nat) (t2 : List TEv),
         timeline initState evs = t1 ++ TEv.disp q n :: t2 →
         ∀ h2, TEv.sub p h2 ∈ t1 → TEv.disp p h2 ∈ t1) ∧
    (∀ (evs : List Ev) (p : Priority),
       ∃ rest, subsOf p (timeline initState evs) =
         dispsOf p (timeline initState evs) ++ rest) ∧
    (∀ (s : SchedState) (q : Priority) (n : Nat) (s2 : SchedState) (p : Priority),
       dequeue s = some (q, n, s2) → prank q < prank p → lane p s = []) ∧
    (∀ (s : SchedState) (e : Ev) (n : Nat),
       n ∈ s.inFlight → (∀ m, e = Ev.finish m → m ≠ n) →
       n ∈ (step s e).1.inFlight) := by
  refine ⟨?_, ?_, ?_, ?_⟩
  · intro evs p q hpq t1 n t2 heq h2 hsub
    exact sub_before_disp evs initState p q hpq t1 n t2 heq h2 hsub
  · intro evs p
    obtain ⟨rest, hr⟩ := fifo_invariant evs initState p
    refine ⟨rest, ?_⟩
    have hinit : lane p initState = [] := by cases p <;> rfl
    rw [hinit, List.nil_append] at hr
    exact hr
  · intro s q n s2 p hd hpq
    exact (dequeue_some_lane hd).2.2 p hpq
  · intro s e n hmem hfin
    cases e with
    | submit p m =>
      simp only [step]
      rw [inFlight_enqueue]
      exact hmem
    | pull =>
      cases hd : dequeue s with
      | none => simp only [step, hd]; exact hmem
      | some out =>
        obtain ⟨q, m, s2⟩ := out
        simp only [step, hd]
        rw [dequeue_some_inFlight hd]
        exact List.mem_append_left _ hmem
    | finish m =>
      simp only [step]
      have hne : m ≠ n := hfin m rfl
      exact List.mem_filter.mpr ⟨hmem, by simp [bne_iff_ne]; exact fun h => hne h.symm⟩

/-- Witness for C1: in the concrete run where a normal item is submitted,
then a high item, then two pulls, the high item is dispatched before the
normal item starts processing. -/
theorem scheduler_ordering_claim_witness :
    TEv.disp Priority.high 2 ∈
      [TEv.sub Priority.normal 1, TEv.sub Priority.high 2, TEv.disp Priority.high 2] :=
  scheduler_ordering_claim.1
    [Ev.submit Priority.normal 1, Ev.submit Priority.high 2, Ev.pull, Ev.pull]
    Priority.high Priority.normal (by decide)
    [TEv.sub Priority.normal 1, TEv.sub Priority.high 2, TEv.disp Priority.high 2]
    1 [] (by decide) 2 (by decide)

/-! ## Renderer lemmas and the rendering claim -/

lemma varsOf_cons_lit (l : List Char) (rest : List Seg) :
    varsOf (Seg.lit l :: rest) = varsOf rest := by
  simp [varsOf, List.filterMap_cons]

lemma varsOf_cons_var (w : String) (rest : List Seg) :
    varsOf (Seg.var w :: rest) = w :: varsOf rest := by
  simp [varsOf, List.filterMap_cons]

lemma firstUnresolved_none_iff (b : List (String × String)) (segs : List Seg) :
    firstUnresolved (pieces b segs) = none ↔
      ∀ v ∈ varsOf segs, lookupVar b v ≠ none := by
  induction segs with
  | nil => simp [pieces, firstUnresolved, varsOf]
  | cons sg rest ih =>
    cases sg with
    | lit l =>
      simpa [pieces, firstUnresolved, varsOf_cons_lit] using ih
    | var v =>
      cases hv : lookupVar b v with
      | some val =>
        simpa [pieces, firstUnresolved, varsOf_cons_var, hv] using ih
      | none =>
        simp [pieces, firstUnresolved, varsOf_cons_var, hv]

lemma firstUnresolved_some (b : List (String × String)) (segs : List Seg) (v : String) :
    firstUnresolved (pieces b segs) = some v →
      v ∈ varsOf segs ∧ lookupVar b v = none := by
  induction segs with
  | nil => simp [pieces, firstUnresolved]
  | cons sg rest ih =>
    cases sg with
    | lit l =>
      intro h
      simp only [pieces, List.map_cons, firstUnresolved] at h
      have := ih h
      exact ⟨by rw [varsOf_cons_lit]; exact this.1, this.2⟩
    | var w =>
      cases hw : lookupVar b w with
      | some val =>
        intro h
        simp only [pieces, List.map_cons, hw, firstUnresolved] at h
        have := ih h
        exact ⟨by rw [varsOf_cons_var]; exact List.mem_cons_of_mem _ this.1, this.2⟩
      | none =>
        intro h
        simp only [pieces, List.map_cons, hw, firstUnresolved, Option.some.injEq] at h
        subst h
        exact ⟨by rw [varsOf_cons_var]; exact List.mem_cons_self _ _, hw⟩

lemma pieces_congr (b b2 : List (String × String)) :
    ∀ segs, (∀ v ∈ varsOf segs, lookupVar b v = lookupVar b2 v) →
      pieces b segs = pieces b2 segs := by
  intro segs
  induction segs with
  | nil => intro _; rfl
  | cons sg rest ih =>
    intro h
    cases sg with
    | lit l =>
      have hr : pieces b rest = pieces b2 rest :=
        ih fun v hv => h v (by rw [varsOf_cons_lit]; exact hv)
      simp only [pieces, List.map_cons] at hr ⊢
      rw [hr]
    | var w =>
      have hw : lookupVar b w = lookupVar b2 w :=
        h w (by rw [varsOf_cons_var]; exact List.mem_cons_self _ _)
      have hr : pieces b rest = pieces b2 rest :=
        ih fun v hv => h v (by rw [varsOf_cons_var]; exact List.mem_cons_of_mem _ hv)
      simp only [pieces, List.map_cons] at hr ⊢
      rw [hw, hr]

lemma renderStr_ok_iff (b : List (String × String)) (s : String) :
    (∃ out, renderStr b s = Except.ok out) ↔
      ∀ v ∈ varsOf (parseTemplateStr s), lookupVar b v ≠ none := by
  constructor
  · rintro ⟨out, hout⟩ v hv
    cases h : firstUnresolved (pieces b (parseTemplateStr s)) with
    | some w => simp [renderStr, h] at hout
    | none => exact (firstUnresolved_none_iff b _).mp h v hv
  · intro hall
    have h : firstUnresolved (pieces b (parseTemplateStr s)) = none :=
      (firstUnresolved_none_iff b _).mpr hall
    exact ⟨concatPieces (pieces b (parseTemplateStr s)), by simp [renderStr, h]⟩

lemma renderStr_error (b : List (String × String)) (s : String) (e : RenderError) :
    renderStr b s = Except.error e →
      ∃ v, e = RenderError.MissingVariable v ∧
        v ∈ varsOf (parseTemplateStr s) ∧ lookupVar b v = none := by
  intro h
  cases hfu : firstUnresolved (pieces b (parseTemplateStr s)) with
  | none => simp [renderStr, hfu] at h
  | some v =>
    have hv := firstUnresolved_some b _ v hfu
    have he : RenderError.MissingVariable v = e := by
      simp only [renderStr, hfu, Except.error.injEq] at h
      exact h
    exact ⟨v, he.symm, hv.1, hv.2⟩

lemma renderStr_ok_val (b : List (String × String)) (s : String) (out : String) :
    renderStr b s = Except.ok out →
      firstUnresolved (pieces b (parseTemplateStr s)) = none ∧
      out = concatPieces (pieces b (parseTemplateStr s)) := by
  intro h
  cases hfu : firstUnresolved (pieces b (parseTemplateStr s)) with
  | some v => simp [renderStr, hfu] at h
  | none =>
    refine ⟨rfl, ?_⟩
    simp [renderStr, hfu] at h
    exact h.symm

lemma renderStr_congr (b b2 : List (String × String)) (s : String)
    (h : ∀ v ∈ varsOf (parseTemplateStr s), lookupVar b v = lookupVar b2 v) :
    renderStr b s = renderStr b2 s := by
  simp only [renderStr]
  rw [pieces_congr b b2 _ h]

/-- Claim C2: render(T,B) succeeds exactly when every placeholder
referenced in the subject or body of T has a binding in B; on success no
placeholder is left unresolved and the output is the substitution of the
parsed segments; a failure is always MissingVariable naming a referenced
variable that has no binding; bindings not referenced are ignored; and
rendering is deterministic. -/
theorem render_claim :
    (∀ (t : Template) (b : List (String × String)),
       (∃ out, render t b = Except.ok out) ↔
         ∀ v ∈ referencedVars t, lookupVar b v ≠ none) ∧
    (∀ (t : Template) (b : List (String × String)) (e : RenderError),
       render t b = Except.error e →
         ∃ v, e = RenderError.MissingVariable v ∧
           v ∈ referencedVars t ∧ lookupVar b v = none) ∧
    (∀ (t : Template) (b : List (String × String)) (out : Rendered),
       render t b = Except.ok out →
         firstUnresolved (pieces b (parseTemplateStr t.subject)) = none ∧
         firstUnresolved (pieces b (parseTemplateStr t.body)) = none ∧
         out = ⟨concatPieces (pieces b (parseTemplateStr t.subject)),
                concatPieces (pieces b (parseTemplateStr t.body))⟩) ∧
    (∀ (t : Template) (b b2 : List (String × String)),
       (∀ v ∈ referencedVars t, lookupVar b v = lookupVar b2 v) →
       render t b = render t b2) ∧
    (∀ (t : Template) (b : List (String × String)) (r1 r2 : Except RenderError Rendered),
       render t b = r1 → render t b = r2 → r1 = r2) := by
  refine ⟨?_, ?_, ?_, ?_, ?_⟩
  · intro t b
    constructor
    · rintro ⟨out, hout⟩ v hv
      rcases List.mem_append.mp hv with h | h
      · cases h1 : renderStr b t.subject with
        | error e =>
          cases h2 : renderStr b t.body <;> simp [render, h1, h2] at hout
        | ok o1 => exact (renderStr_ok_iff b t.subject).mp ⟨o1, h1⟩ v h
      · cases h2 : renderStr b t.body with
        | error e =>
          cases h1 : renderStr b t.subject <;> simp [render, h1, h2] at hout
        | ok o2 => exact (renderStr_ok_iff b t.body).mp ⟨o2, h2⟩ v h
    · intro hall
      obtain ⟨o1, h1⟩ := (renderStr_ok_iff b t.subject).mpr
        fun v hv => hall v (List.mem_append_left _ hv)
      obtain ⟨o2, h2⟩ := (renderStr_ok_iff b t.body).mpr
        fun v hv => hall v (List.mem_append_right _ hv)
      exact ⟨⟨o1, o2⟩, by simp [render, h1, h2]⟩
  · intro t b e he
    cases h1 : renderStr b t.subject with
    | error e1 =>
      have hee : e1 = e := by
        cases h2 : renderStr b t.body <;>
          simp only [render, h1, h2, Except.error.injEq] at he <;> exact he
      obtain ⟨v, hv1, hv2, hv3⟩ := renderStr_error b t.subject e1 h1
      exact ⟨v, hee ▸ hv1, List.mem_append_left _ hv2, hv3⟩
    | ok o1 =>
      cases h2 : renderStr b t.body with
      | error e2 =>
        have hee : e2 = e := by
          simp only [render, h1, h2, Except.error.injEq] at he
          exact he
        obtain ⟨v, hv1, hv2, hv3⟩ := renderStr_error b t.body e2 h2
        exact ⟨v, hee ▸ hv1, List.mem_append_right _ hv2, hv3⟩
      | ok o2 => simp [render, h1, h2] at he
  · intro t b out hout
    cases h1 : renderStr b t.subject with
    | error e =>
      cases h2 : renderStr b t.body <;> simp [render, h1, h2] at hout
    | ok o1 =>
      cases h2 : renderStr b t.body with
      | error e => simp [render, h1, h2] at hout
      | ok o2 =>
        simp only [render, h1, h2, Except.ok.injEq] at hout
        obtain ⟨hfu1, ho1⟩ := renderStr_ok_val b t.subject o1 h1
        obtain ⟨hfu2, ho2⟩ := renderStr_ok_val b t.body o2 h2
        exact ⟨hfu1, hfu2, by rw [← hout, ho1, ho2]⟩
  · intro t b b2 hagree
    have e1 : renderStr b t.subject = renderStr b2 t.subject :=
      renderStr_congr b b2 t.subject
        fun v hv => hagree v (List.mem_append_left _ hv)
    have e2 : renderStr b t.body = renderStr b2 t.body :=
      renderStr_congr b b2 t.body
        fun v hv => hagree v (List.mem_append_right _ hv)
    simp only [render, e1, e2]
  · intro t b r1 r2 h1 h2
    rw [← h1, ← h2]

/-- Witness for C2: rendering the sse_test_template with an extra unused
binding equals rendering it with only the referenced binding. -/
theorem render_claim_witness :
    render sseTestTemplate [("name", "Tester"), ("extra", "x")] =
      render sseTestTemplate [("name", "Tester")] :=
  render_claim.2.2.2.1 sseTestTemplate
    [("name", "Tester"), ("extra", "x")] [("name", "Tester")] (by decide)

/-- Claim C7: a template is accepted at creation exactly when every
placeholder referenced in its subject or body is declared; rendering
never consults the declared variable list (no send-time check);
declaring extra unused variables is legal; and the concrete templates
the scripts create reference and declare exactly the claimed variables
and are accepted. -/
theorem template_invariant_claim :
    (∀ t : Template, createAccepts t = true ↔
       ∀ v ∈ referencedVars t, v ∈ t.declaredVars) ∧
    (∀ (t : Template) (b : List (String × String)) (vs : List String),
       render { t with declaredVars := vs } b = render t b) ∧
    (∀ v, v ∈ referencedVars welcomeAlert ↔ (v = "name" ∨ v = "role")) ∧
    welcomeAlert.declaredVars = ["name", "role"] ∧
    (∀ v, v ∈ referencedVars sseTestTemplate ↔ v = "name") ∧
    sseTestTemplate.declaredVars = ["name"] ∧
    createAccepts welcomeAlert = true ∧
    createAccepts sseTestTemplate = true ∧
    (∃ t : Template, createAccepts t = true ∧
       ∃ v, v ∈ t.declaredVars ∧ v ∉ referencedVars t) := by
  refine ⟨?_, ?_, ?_, rfl, ?_, rfl, by decide, by decide, ?_⟩
  · intro t
    simp [createAccepts, List.all_eq_true]
  · intro t b vs
    rfl
  · have h : referencedVars welcomeAlert = ["name", "name", "role"] := by decide
    intro v
    rw [h]
    simp
  · have h : referencedVars sseTestTemplate = ["name"] := by decide
    intro v
    rw [h]
    simp
  · refine ⟨{ name := "t", channel := Channel.email, subject := "s", body := "b",
              declaredVars := ["unused"] }, by decide, "unused", by decide, by decide⟩

/-- Witness for C7: the welcome_alert template is accepted and its
referenced placeholder name is among its declared variables. -/
theorem template_invariant_claim_witness :
    "name" ∈ welcomeAlert.declaredVars :=
  (template_invariant_claim.1 welcomeAlert).mp (by decide) "name" (by decide)

/-! ## Preference resolver claim -/

/-- Claim C4: when the supplied category is present in the category
map of the user, isAllowed is the conjunction of the category enabled
flag and channel membership in its enabled channel set, independent of
the global per-channel flag; with no category or an absent category it
is the global per-channel flag. -/
theorem preference_resolver_claim :
    (∀ (prefs : Preferences) (ch : Channel) (c : String) (cp : CategoryPref),
       lookupCategory prefs.categories c = some cp →
       isAllowed prefs ch (some c) = (cp.enabled && cp.enabledChannels.contains ch)) ∧
    (∀ (flags1 flags2 : Channel → Bool) (cats : List (String × CategoryPref))
       (ch : Channel) (c : String),
       lookupCategory cats c ≠ none →
       isAllowed ⟨flags1, cats⟩ ch (some c) = isAllowed ⟨flags2, cats⟩ ch (some c)) ∧
    (∀ (prefs : Preferences) (ch : Channel),
       isAllowed prefs ch none = prefs.channelFlag ch) ∧
    (∀ (prefs : Preferences) (ch : Channel) (c : String),
       lookupCategory prefs.categories c = none →
       isAllowed prefs ch (some c) = prefs.channelFlag ch) := by
  refine ⟨?_, ?_, fun prefs ch => rfl, ?_⟩
  · intro prefs ch c cp h
    simp [isAllowed, h]
  · intro f1 f2 cats ch c h
    cases hc : lookupCategory cats c with
    | none => exact absurd hc h
    | some cp => simp [isAllowed, hc]
  · intro prefs ch c h
    simp [isAllowed, h]

/-- Witness for C4: for the user created by setup_test_environment.py,
with all global flags false, the present default category decides and
allows the sse channel. -/
theorem preference_resolver_claim_witness :
    isAllowed sseUserPrefs Channel.sse (some "default") =
      (true && [Channel.sse].contains Channel.sse) :=
  preference_resolver_claim.1 sseUserPrefs Channel.sse "default"
    ⟨true, [Channel.sse]⟩ (by decide)

/-! ## Dispatcher claims: idempotency and validation -/

lemma lookupIdem_append_hit (m : List ((Nat × String) × Nat)) (app : Nat)
    (k : String) (n : Nat) (h : lookupIdem m app k = none) :
    lookupIdem (m ++ [((app, k), n)]) app k = some n := by
  induction m with
  | nil => simp [lookupIdem]
  | cons e rest ih =>
    obtain ⟨key, v⟩ := e
    by_cases hk : key.1 = app ∧ key.2 = k
    · simp [lookupIdem, hk] at h
    · simp only [lookupIdem, if_neg hk] at h
      simp only [List.cons_append, lookupIdem, if_neg hk]
      exact ih h

/-- Claim C3: a second submission carrying the same idempotency key for
the same application, accepted after a first accepted submission,
returns the same notification id and leaves the dispatcher state fully
unchanged: no new record, no new queue entry, hence no new delivery
attempt sequence. -/
theorem idempotency_claim :
    ∀ (w : World) (st : DispState) (r1 r2 : Req) (k : String)
      (nid1 : Nat) (st1 : DispState),
      r1.idemKey = some k → r2.idemKey = some k → r2.appId = r1.appId →
      validate w r2 = true →
      submit w st r1 = (SubmitResult.accepted nid1, st1) →
      submit w st1 r2 = (SubmitResult.accepted nid1, st1) := by
  intro w st r1 r2 k nid1 st1 hk1 hk2 happ hval2 hsub
  have hval1 : validate w r1 = true := by
    by_contra hv
    rw [submit, if_neg hv] at hsub
    simp at hsub
  rw [submit, if_pos hval1, hk1] at hsub
  rw [submit, if_pos hval2, hk2, happ]
  cases hl : lookupIdem st.idemMap r1.appId k with
  | some nid =>
    simp only [hl, Prod.mk.injEq, SubmitResult.accepted.injEq] at hsub
    obtain ⟨hnid, hst⟩ := hsub
    subst hnid
    subst hst
    simp [hl]
  | none =>
    simp only [hl] at hsub
    have hn : st.nextId = nid1 := by
      have := congrArg Prod.fst hsub
      simpa [submitNew] using this
    have hst : st1 =
        { nextId := st.nextId + 1
          records := st.records ++ [(st.nextId, r1.appId)]
          idemMap := st.idemMap ++ [((r1.appId, k), st.nextId)]
          queue := st.queue ++ [(r1.priority, st.nextId)] } := by
      have := congrArg Prod.snd hsub
      simp only [submitNew, hk1] at this
      exact this.symm
    rw [hst]
    simp only [lookupIdem_append_hit st.idemMap r1.appId k st.nextId hl]
    rw [hn]

/-- Witness for C3: resubmitting the identical request with idempotency
key k1 after a first accepted submission returns the same id 0 and the
same state. -/
theorem idempotency_claim_witness :
    submit ⟨[], []⟩
      ⟨1, [(0, 1)], [((1, "k1"), 0)], [(Priority.normal, 0)]⟩
      { appId := 1, userId := none, templateId := none,
        channel := some Channel.webhook, priority := Priority.normal,
        idemKey := some "k1", overrideUrl := some "u", category := none } =
      (SubmitResult.accepted 0,
       ⟨1, [(0, 1)], [((1, "k1"), 0)], [(Priority.normal, 0)]⟩) :=
  idempotency_claim ⟨[], []⟩ initDispState
    { appId := 1, userId := none, templateId := none,
      channel := some Channel.webhook, priority := Priority.normal,
      idemKey := some "k1", overrideUrl := some "u", category := none }
    { appId := 1, userId := none, templateId := none,
      channel := some Channel.webhook, priority := Priority.normal,
      idemKey := some "k1", overrideUrl := some "u", category := none }
    "k1" 0 ⟨1, [(0, 1)], [((1, "k1"), 0)], [(Priority.normal, 0)]⟩
    rfl rfl rfl (by decide) (by decide)

/-- Claim C8: submit either accepts with a notification id or rejects
with a validation error; a rejection leaves the dispatcher state
unchanged, so nothing is enqueued; an unknown channel, a template
belonging to another application, and a preference-denied channel
without an override are each rejected; and the e2e script treats any
status other than 202 as failure and reads the notification id from an
accepted response. -/
theorem submit_validation_claim :
    (∀ (w : World) (st : DispState) (r : Req),
       (∃ nid, (submit w st r).1 = SubmitResult.accepted nid) ∨
         (submit w st r).1 = SubmitResult.validationError) ∧
    (∀ (w : World) (st : DispState) (r : Req),
       (submit w st r).1 = SubmitResult.validationError → (submit w st r).2 = st) ∧
    (∀ (w : World) (st : DispState) (r : Req),
       r.channel = none → submit w st r = (SubmitResult.validationError, st)) ∧
    (∀ (w : World) (st : DispState) (r : Req) (c : Channel) (tid : Nat)
       (tr : Nat × Nat × Channel),
       r.channel = some c → r.templateId = some tid → findTemplate w tid = some tr →
       tr.2.1 ≠ r.appId → submit w st r = (SubmitResult.validationError, st)) ∧
    (∀ (w : World) (st : DispState) (r : Req) (c : Channel) (uid : Nat)
       (prefs : Preferences),
       r.channel = some c → r.overrideUrl = none → r.userId = some uid →
       findUser w uid = some prefs → isAllowed prefs c r.category = false →
       submit w st r = (SubmitResult.validationError, st)) ∧
    (∀ (status : Nat) (nid : String), status ≠ 202 →
       scriptNotifStep status nid = Except.error 1) ∧
    (∀ nid : String, scriptNotifStep 202 nid = Except.ok nid) := by
  refine ⟨?_, ?_, ?_, ?_, ?_, ?_, fun nid => rfl⟩
  · intro w st r
    by_cases hv : validate w r = true
    · rw [submit, if_pos hv]
      cases hk : r.idemKey with
      | none => exact Or.inl ⟨st.nextId, rfl⟩
      | some k =>
        cases hl : lookupIdem st.idemMap r.appId k with
        | some nid => simp only [hl]; exact Or.inl ⟨nid, rfl⟩
        | none => simp only [hl]; exact Or.inl ⟨st.nextId, rfl⟩
    · rw [submit, if_neg hv]
      exact Or.inr rfl
  · intro w st r h
    by_cases hv : validate w r = true
    · exfalso
      rw [submit, if_pos hv] at h
      cases hk : r.idemKey with
      | none => simp [hk, submitNew] at h
      | some k =>
        rw [hk] at h
        cases hl : lookupIdem st.idemMap r.appId k with
        | some nid => simp only [hl] at h; cases h
        | none => simp only [hl, submitNew] at h; cases h
    · rw [submit, if_neg hv]
  · intro w st r h
    have hv : validate w r = false := by simp [validate, h]
    rw [submit, if_neg (by simp [hv])]
  · intro w st r c tid tr hch htid hft hne
    have hv : validate w r = false := by
      simp [validate, hch, htid, hft, hne]
    rw [submit, if_neg (by simp [hv])]
  · intro w st r c uid prefs hch hov huid hfu hal
    have hv : validate w r = false := by
      simp [validate, hch, hov, huid, hfu, hal]
    rw [submit, if_neg (by simp [hv])]
  · intro status nid h
    simp [scriptNotifStep, h]

/-- Witness for C8: a request with an unrecognized channel is rejected
and the dispatcher state is unchanged. -/
theorem submit_validation_claim_witness :
    submit ⟨[], []⟩ initDispState
      { appId := 1, userId := none, templateId := none, channel := none,
        priority := Priority.normal, idemKey := none, overrideUrl := none,
        category := none } = (SubmitResult.validationError, initDispState) :=
  submit_validation_claim.2.2.1 ⟨[], []⟩ initDispState
    { appId := 1, userId := none, templateId := none, channel := none,
      priority := Priority.normal, idemKey := none, overrideUrl := none,
      category := none } rfl

/-! ## Webhook adapter claim -/

lemma deliverLoop_transient (f : Nat → HttpOutcome)
    (h : ∀ i, classifyWebhook (f i) = AttemptOutcome.transientFailure) :
    ∀ rem done : Nat, deliverLoop f done rem = (done + rem, DStatus.failed) := by
  intro rem
  induction rem with
  | zero => intro done; simp [deliverLoop]
  | succ n ih =>
    intro done
    rw [deliverLoop, h done, ih (done + 1)]
    have : done + 1 + n = done + (n + 1) := by omega
    rw [this]

/-- Claim C5: the webhook adapter yields success exactly on a 2xx
response; network errors, timeouts and 5xx responses are transient
failures retried with a doubling backoff delay; non-rate-limit 4xx
responses are permanent failures; and against a target that always
returns 500 the delivery performs exactly maxAttempts attempts ending in
the terminal status failed. -/
theorem webhook_adapter_claim :
    (∀ c : Nat, classifyWebhook (HttpOutcome.response c) = AttemptOutcome.success ↔
       (200 ≤ c ∧ c < 300)) ∧
    classifyWebhook HttpOutcome.networkFailure = AttemptOutcome.transientFailure ∧
    classifyWebhook HttpOutcome.timeout = AttemptOutcome.transientFailure ∧
    (∀ c : Nat, 500 ≤ c → classifyWebhook (HttpOutcome.response c) =
       AttemptOutcome.transientFailure) ∧
    (∀ c : Nat, 400 ≤ c → c < 500 → c ≠ 429 →
       classifyWebhook (HttpOutcome.response c) = AttemptOutcome.permanentFailure) ∧
    (∀ (f : Nat → HttpOutcome) (maxAttempts : Nat),
       (∀ i, f i = HttpOutcome.response 500) →
       webhookDelivery f maxAttempts = (maxAttempts, DStatus.failed)) ∧
    (∀ base a : Nat, backoffDelay base (a + 1) = 2 * backoffDelay base a) := by
  refine ⟨?_, rfl, rfl, ?_, ?_, ?_, ?_⟩
  · intro c
    by_cases h : 200 ≤ c ∧ c < 300
    · simp [classifyWebhook, h]
    · by_cases h2 : 400 ≤ c ∧ c < 500
      · by_cases h3 : c = 429 <;> simp [classifyWebhook, h, h2, h3]
      · simp [classifyWebhook, h, h2]
  · intro c hc
    have h : ¬(200 ≤ c ∧ c < 300) := by omega
    have h2 : ¬(400 ≤ c ∧ c < 500) := by omega
    simp [classifyWebhook, h, h2]
  · intro c h1 h2 h3
    have h : ¬(200 ≤ c ∧ c < 300) := by omega
    simp [classifyWebhook, h, h1, h2, h3]
  · intro f maxAttempts hall
    have hcl : ∀ i, classifyWebhook (f i) = AttemptOutcome.transientFailure := by
      intro i; rw [hall i]; decide
    rw [webhookDelivery, deliverLoop_transient f hcl maxAttempts 0, Nat.zero_add]
  · intro base a
    simp [backoffDelay, pow_succ]
    ring

/-- Witness for C5: with max_attempts 3 and a target that always
returns 500, exactly 3 attempts are made and the terminal status is
failed. -/
theorem webhook_adapter_claim_witness :
    webhookDelivery (fun _ => HttpOutcome.response 500) 3 = (3, DStatus.failed) :=
  webhook_adapter_claim.2.2.2.2.2.1 (fun _ => HttpOutcome.response 500) 3
    (fun _ => rfl)

/-! ## SSE adapter claim -/

lemma sessionsOf_nil_lookup (reg : List (Nat × Nat)) (uid : Nat)
    (h : sessionsOf reg uid = []) : lookupSession reg uid = none := by
  induction reg with
  | nil => rfl
  | cons e rest ih =>
    obtain ⟨u, s0⟩ := e
    by_cases hu : u = uid
    · simp [sessionsOf, hu] at h
    · simp only [sessionsOf, List.filter_cons] at h
      simp only [hu, bne_iff_ne, ne_eq, beq_iff_eq, if_neg hu] at h
      simp only [lookupSession, if_neg hu]
      exact ih (by simpa [sessionsOf] using h)

lemma sessionsOf_single_lookup (reg : List (Nat × Nat)) (uid s : Nat)
    (h : sessionsOf reg uid = [s]) : lookupSession reg uid = some s := by
  induction reg with
  | nil => simp [sessionsOf] at h
  | cons e rest ih =>
    obtain ⟨u, s0⟩ := e
    by_cases hu : u = uid
    · simp [sessionsOf, hu] at h
      simp [lookupSession, hu, h.1]
    · simp only [sessionsOf, List.filter_cons, beq_iff_eq, if_neg hu] at h
      simp only [lookupSession, if_neg hu]
      exact ih (by simpa [sessionsOf] using h)

/-- Claim C6: an SSE notification to a user with zero live sessions in
the registry terminates immediately as undeliverable with zero attempts
and no pushed event; with exactly one live session it terminates
delivered and that session receives exactly one event carrying the
notification id. -/
theorem sse_adapter_claim :
    (∀ (reg : List (Nat × Nat)) (uid nid : Nat),
       sessionsOf reg uid = [] →
       sseDispatch reg uid nid = ⟨DStatus.undeliverable, 0, []⟩) ∧
    (∀ (reg : List (Nat × Nat)) (uid nid s : Nat),
       sessionsOf reg uid = [s] →
       sseDispatch reg uid nid = ⟨DStatus.delivered, 1, [(s, nid)]⟩ ∧
       ((sseDispatch reg uid nid).events.filter
          (fun e => e.1 == s && e.2 == nid)).length = 1) := by
  constructor
  · intro reg uid nid h
    simp [sseDispatch, sessionsOf_nil_lookup reg uid h]
  · intro reg uid nid s h
    have hl := sessionsOf_single_lookup reg uid s h
    exact ⟨by simp [sseDispatch, hl], by simp [sseDispatch, hl]⟩

/-- Witness for C6: with a registry holding exactly one session 42 for
user 7, notification 99 is delivered and session 42 receives one event
with id 99. -/
theorem sse_adapter_claim_witness :
    sseDispatch [(7, 42)] 7 99 = ⟨DStatus.delivered, 1, [(42, 99)]⟩ :=
  (sse_adapter_claim.2 [(7, 42)] 7 99 42 (by decide)).1

/-! ## setup_data.py request claim -/

/-- Claim C9: in setup_data.py every value returned by request comes
from a successfully completed and decoded HTTP call; any HTTPError or
other exception terminates the process with exit code 1; and main stops
at the first failed step, so no later call contributes a value. -/
theorem setup_data_request_claim :
    (∀ (r : HttpResult) (b : String),
       requestCall r = Except.ok b → r = HttpResult.success b) ∧
    (∀ (c : Nat) (b : String),
       requestCall (HttpResult.httpFailure c b) = Except.error 1) ∧
    requestCall HttpResult.otherFailure = Except.error 1 ∧
    (∀ b : String, requestCall (HttpResult.success b) = Except.ok b) ∧
    (∀ (r : HttpResult) (rest : List HttpResult),
       (∀ b, r ≠ HttpResult.success b) → mainSteps (r :: rest) = ([], some 1)) ∧
    (∀ (b : String) (rest : List HttpResult),
       mainSteps (HttpResult.success b :: rest) =
         (b :: (mainSteps rest).1, (mainSteps rest).2)) := by
  refine ⟨?_, fun c b => rfl, rfl, fun b => rfl, ?_, fun b rest => rfl⟩
  · intro r b h
    cases r with
    | success b2 =>
      simp only [requestCall, Except.ok.injEq] at h
      rw [h]
    | httpFailure c b2 => simp [requestCall] at h
    | otherFailure => simp [requestCall] at h
  · intro r rest h
    cases r with
    | success b2 => exact absurd rfl (h b2)
    | httpFailure c b2 => rfl
    | otherFailure => rfl

/-- Witness for C9: main stops with exit code 1 at a failed first step,
performing no later step. -/
theorem setup_data_request_claim_witness :
    mainSteps [HttpResult.otherFailure, HttpResult.success "x"] = ([], some 1) :=
  setup_data_request_claim.2.2.2.2.1 HttpResult.otherFailure [HttpResult.success "x"]
    (fun _ h => HttpResult.noConfusion h)

/-! ## test_webhook_e2e.py http_request and wait_for_health claim -/

lemma httpRequestModel_ok_of_decodes (loads : String → Option String)
    (r : UrlOutcome) (h : decodes loads r = true) :
    ∃ body, httpRequestModel loads r = Except.ok (statusOf r, body) := by
  cases r with
  | ok s b =>
    simp only [decodes, Bool.or_eq_true, beq_iff_eq, Option.isSome_iff_exists] at h
    rcases h with h | ⟨j, hj⟩
    · subst h
      exact ⟨some emptyObject, by simp [httpRequestModel, loadsOrEmpty, statusOf]⟩
    · by_cases hb : b = ""
      · subst hb
        exact ⟨some emptyObject, by simp [httpRequestModel, loadsOrEmpty, statusOf]⟩
      · exact ⟨some j, by simp [httpRequestModel, loadsOrEmpty, hb, hj, statusOf]⟩
  | httpFailure c b =>
    simp only [decodes, Bool.or_eq_true, beq_iff_eq, Option.isSome_iff_exists] at h
    rcases h with h | ⟨j, hj⟩
    · subst h
      exact ⟨some emptyObject, by simp [httpRequestModel, loadsOrEmpty, statusOf]⟩
    · by_cases hb : b = ""
      · subst hb
        exact ⟨some emptyObject, by simp [httpRequestModel, loadsOrEmpty, statusOf]⟩
      · exact ⟨some j, by simp [httpRequestModel, loadsOrEmpty, hb, hj, statusOf]⟩
  | urlFailure => exact ⟨none, rfl⟩

/-- When every poll it can reach decodes, the health loop returns a
Boolean: true with a 200 poll in range, false with none. -/
lemma waitForHealthAux_cases (loads : String → Option String) (f : Nat → UrlOutcome) :
    ∀ rem i : Nat, (∀ j, j < rem → decodes loads (f (i + j)) = true) →
      ((∃ j, j < rem ∧ statusOf (f (i + j)) = 200) ∧
        waitForHealthAux loads f i rem = Except.ok true) ∨
      ((¬ ∃ j, j < rem ∧ statusOf (f (i + j)) = 200) ∧
        waitForHealthAux loads f i rem = Except.ok false) := by
  intro rem
  induction rem with
  | zero =>
    intro i _
    right
    exact ⟨by rintro ⟨j, hj, _⟩; omega, rfl⟩
  | succ n ih =>
    intro i h
    obtain ⟨body, hb⟩ := httpRequestModel_ok_of_decodes loads (f i)
      (by have := h 0 (by omega); simpa using this)
    by_cases hs : statusOf (f i) = 200
    · left
      refine ⟨⟨0, by omega, by simpa using hs⟩, ?_⟩
      simp [waitForHealthAux, hb, hs]
    · have h2 : ∀ j, j < n → decodes loads (f (i + 1 + j)) = true := by
        intro j hj
        have hv := h (j + 1) (by omega)
        have he : i + (j + 1) = i + 1 + j := by omega
        rw [he] at hv
        exact hv
      rcases ih (i + 1) h2 with ⟨⟨j, hj, hjs⟩, heq⟩ | ⟨hne, heq⟩
      · left
        refine ⟨⟨j + 1, by omega, ?_⟩, by simp [waitForHealthAux, hb, hs, heq]⟩
        have he : i + (j + 1) = i + 1 + j := by omega
        rw [he]
        exact hjs
      · right
        refine ⟨?_, by simp [waitForHealthAux, hb, hs, heq]⟩
        rintro ⟨j, hj, hjs⟩
        cases j with
        | zero => exact hs (by simpa using hjs)
        | succ j2 =>
          refine hne ⟨j2, by omega, ?_⟩
          have he : i + 1 + j2 = i + (j2 + 1) := by omega
          rw [he]
          exact hjs

lemma waitForHealthAux_congr (loads : String → Option String) (f g : Nat → UrlOutcome) :
    ∀ rem i : Nat, (∀ j, j < rem → f (i + j) = g (i + j)) →
      waitForHealthAux loads f i rem = waitForHealthAux loads g i rem := by
  intro rem
  induction rem with
  | zero => intro i _; rfl
  | succ n ih =>
    intro i h
    have h0 : f i = g i := by have := h 0 (by omega); simpa using this
    have hrec : waitForHealthAux loads f (i + 1) n = waitForHealthAux loads g (i + 1) n := by
      refine ih (i + 1) fun j hj => ?_
      have hv := h (j + 1) (by omega)
      have he : i + (j + 1) = i + 1 + j := by omega
      rw [he] at hv
      exact hv
    simp only [waitForHealthAux, h0, hrec]

/-- Counterexample to C10 as stated: on a 200 response whose non-empty
body OK is not JSON, and on an HTTPError whose body oops is not JSON,
http_request raises a decode exception instead of returning a
(status, body) pair, and wait_for_health propagates that exception
instead of returning a Boolean. -/
theorem webhook_e2e_http_request_claim_cex :
    httpRequestModel jsonLoads (UrlOutcome.ok 200 "OK") =
      Except.error PyExc.jsonDecodeFailure ∧
    httpRequestModel jsonLoads (UrlOutcome.httpFailure 500 "oops") =
      Except.error PyExc.jsonDecodeFailure ∧
    waitForHealth jsonLoads (fun _ => UrlOutcome.ok 200 "OK") =
      Except.error PyExc.jsonDecodeFailure :=
  ⟨rfl, rfl, rfl⟩

/-- Claim C10 (amended): http_request raises no exception except when
decoding a non-empty body fails — a successful response maps to its
status and decoded body (the empty dict for an empty body), an
HTTPError to its code and decoded body likewise, a URLError to status 0
with no body, and the decode exception occurs exactly on an outcome
whose non-empty body fails to decode; when the bodies of the first 30
polls all decode, wait_for_health inspects at most those 30 polls and
returns true exactly when one of them has status 200, and false
otherwise. -/
theorem webhook_e2e_http_request_claim :
    (∀ (loads : String → Option String) (s : Nat) (b j : String),
       b ≠ "" → loads b = some j →
       httpRequestModel loads (UrlOutcome.ok s b) = Except.ok (s, some j)) ∧
    (∀ (loads : String → Option String) (s : Nat),
       httpRequestModel loads (UrlOutcome.ok s "") = Except.ok (s, some emptyObject)) ∧
    (∀ (loads : String → Option String) (c : Nat) (b j : String),
       b ≠ "" → loads b = some j →
       httpRequestModel loads (UrlOutcome.httpFailure c b) = Except.ok (c, some j)) ∧
    (∀ (loads : String → Option String) (c : Nat),
       httpRequestModel loads (UrlOutcome.httpFailure c "") =
         Except.ok (c, some emptyObject)) ∧
    (∀ loads : String → Option String,
       httpRequestModel loads UrlOutcome.urlFailure = Except.ok (0, none)) ∧
    (∀ (loads : String → Option String) (r : UrlOutcome),
       httpRequestModel loads r = Except.error PyExc.jsonDecodeFailure ↔
         decodes loads r = false) ∧
    (∀ (loads : String → Option String) (f : Nat → UrlOutcome),
       (∀ i, i < 30 → decodes loads (f i) = true) →
       ((waitForHealth loads f = Except.ok true ↔
           ∃ i, i < 30 ∧ statusOf (f i) = 200) ∧
        (waitForHealth loads f = Except.ok false ↔
           ¬ ∃ i, i < 30 ∧ statusOf (f i) = 200))) ∧
    (∀ (loads : String → Option String) (f g : Nat → UrlOutcome),
       (∀ i, i < 30 → f i = g i) →
       waitForHealth loads f = waitForHealth loads g) := by
  refine ⟨?_, ?_, ?_, ?_, fun loads => rfl, ?_, ?_, ?_⟩
  · intro loads s b j hb hl
    simp [httpRequestModel, loadsOrEmpty, hb, hl]
  · intro loads s
    simp [httpRequestModel, loadsOrEmpty]
  · intro loads c b j hb hl
    simp [httpRequestModel, loadsOrEmpty, hb, hl]
  · intro loads c
    simp [httpRequestModel, loadsOrEmpty]
  · intro loads r
    cases r with
    | ok s b =>
      by_cases hb : b = ""
      · subst hb
        simp [httpRequestModel, loadsOrEmpty, decodes]
      · cases hl : loads b with
        | some j => simp [httpRequestModel, loadsOrEmpty, decodes, hb, hl]
        | none => simp [httpRequestModel, loadsOrEmpty, decodes, hb, hl]
    | httpFailure c b =>
      by_cases hb : b = ""
      · subst hb
        simp [httpRequestModel, loadsOrEmpty, decodes]
      · cases hl : loads b with
        | some j => simp [httpRequestModel, loadsOrEmpty, decodes, hb, hl]
        | none => simp [httpRequestModel, loadsOrEmpty, decodes, hb, hl]
    | urlFailure => simp [httpRequestModel, decodes]
  · intro loads f h
    have hd := waitForHealthAux_cases loads f 30 0 fun j hj => by simpa using h j hj
    constructor
    · constructor
      · intro ht
        rcases hd with ⟨⟨j, hj, hjs⟩, _⟩ | ⟨_, heq⟩
        · exact ⟨j, hj, by simpa using hjs⟩
        · rw [waitForHealth, heq] at ht
          simp at ht
      · intro hex
        rcases hd with ⟨_, heq⟩ | ⟨hne, _⟩
        · rw [waitForHealth]
          exact heq
        · exfalso
          obtain ⟨i, hi, hv⟩ := hex
          exact hne ⟨i, hi, by simpa using hv⟩
    · constructor
      · intro hf
        rcases hd with ⟨_, heq⟩ | ⟨hne, _⟩
        · rw [waitForHealth, heq] at hf
          simp at hf
        · rintro ⟨i, hi, hv⟩
          exact hne ⟨i, hi, by simpa using hv⟩
      · intro hne2
        rcases hd with ⟨⟨j, hj, hjs⟩, _⟩ | ⟨_, heq⟩
        · exact absurd ⟨j, hj, by simpa using hjs⟩ hne2
        · rw [waitForHealth]
          exact heq
  · intro loads f g h
    rw [waitForHealth, waitForHealth]
    exact waitForHealthAux_congr loads f g 30 0 fun j hj => by simpa using h j hj

/-- Witness for C10 (amended): when every poll answers 200 with an
empty body, wait_for_health returns true. -/
theorem webhook_e2e_http_request_claim_witness :
    waitForHealth jsonLoads (fun _ => UrlOutcome.ok 200 "") = Except.ok true :=
  ((webhook_e2e_http_request_claim.2.2.2.2.2.2.1 jsonLoads
      (fun _ => UrlOutcome.ok 200 "")) (fun i _ => rfl)).1.mpr ⟨0, by omega, rfl⟩

end FRN
